import Mathlib

/-!
Verification of the nuxt-captcha repository against its specification.

The development shallowly embeds the relevant TypeScript code:
* `composables/useTranslations.ts` (translation normalizer),
* `composables/useCaptchaHandler.ts` (captcha widget handler),
* the Pinia captcha store (`useCaptchaStore`),
* `apiCore.service.ts` (HTTP request helper).

JS records are modelled as association lists with assignment semantics,
JS `parseInt` as an explicit prefix parser, the stable ECMAScript
`Array.prototype.sort` as a stable insertion sort, and callback-driven
or async code as explicit state transformers with outcome oracles.
-/

/-! ## Generic JS-style helpers -/

/-- JS object property assignment on an association-list record:
overwrite in place when the key exists, append otherwise. -/
def assocSet {β : Type} (l : List (String × β)) (k : String) (v : β) :
    List (String × β) :=
  match l with
  | [] => [(k, v)]
  | (k2, v2) :: rest =>
    if k2 = k then (k, v) :: rest else (k2, v2) :: assocSet rest k v

/-- JS object property read: the value stored under `k`, if any. -/
def assocLookup {β : Type} (l : List (String × β)) (k : String) : Option β :=
  (l.find? (fun p => p.1 == k)).map (fun p => p.2)

/-- Leading-whitespace test used by JS `parseInt` (the whitespace kinds
relevant here). -/
def jsIsSpace (c : Char) : Bool :=
  c = ' ' || c = '\t' || c = '\n' || c = '\r'

/-- Accumulated value of the leading run of decimal digits. -/
def digitsValue : List Char → Nat → Nat
  | [], acc => acc
  | c :: cs, acc =>
    if c.isDigit then digitsValue cs (acc * 10 + (c.toNat - '0'.toNat))
    else acc

/-- Value of a non-empty leading run of decimal digits; `none` when the
first character is not a digit. -/
def digitsPrefix (cs : List Char) : Option Nat :=
  match cs with
  | [] => none
  | c :: _ => if c.isDigit then some (digitsValue cs 0) else none

/-- JS `parseInt(s, 10)`: skip leading whitespace, optional sign, then a
non-empty digit prefix; `none` models `NaN`. -/
def jsParseInt (s : String) : Option Int :=
  let cs := s.data.dropWhile jsIsSpace
  match cs with
  | '-' :: rest => (digitsPrefix rest).map (fun n => -(n : Int))
  | '+' :: rest => (digitsPrefix rest).map (fun n => (n : Int))
  | rest => (digitsPrefix rest).map (fun n => (n : Int))

/-- Stable insertion of `x` (the earlier element) into an already processed
list, mirroring the stable ECMAScript `Array.prototype.sort`: `x` goes in
front of the first element it does not compare strictly greater than. -/
def insertJs {α : Type} (cmp : α → α → Int) (x : α) : List α → List α
  | [] => [x]
  | y :: ys => if cmp x y ≤ 0 then x :: y :: ys else y :: insertJs cmp x ys

/-- Stable comparator sort (the observable behaviour of the ECMAScript
stable `Array.prototype.sort` for consistent comparators). -/
def sortJs {α : Type} (cmp : α → α → Int) : List α → List α
  | [] => []
  | x :: xs => insertJs cmp x (sortJs cmp xs)

/-! ## apiCore.service.ts -/

/-- Parsed JSON body of an HTTP response, with the fields the service
destructures (`status`, `code`, `detail`, `data`). -/
structure ResponseJson where
  statusB : Bool
  code : Option String
  detail : String
  dataJ : List (String × String)
deriving DecidableEq, Repr

/-- A resolved `fetch` response: HTTP status plus the outcome of
`response.json()` (`none` models a rejected parse). -/
structure HttpResp where
  httpStatus : Nat
  jsonBody : Option ResponseJson
deriving DecidableEq, Repr

/-- Outcome of the `fetch` call itself; `none` models a rejected fetch. -/
abbrev FetchOutcome := Option HttpResp

/-- The normalized envelope returned by `apiCoreService.request`. -/
structure ApiResponse where
  statusCode : Nat
  status : Bool
  code : Option String
  detail : String
  dataJ : List (String × String)
deriving DecidableEq, Repr

/-- The fixed generic-error envelope of apiCore.service.ts. -/
def genericError : ApiResponse :=
  { statusCode := 500, status := false, code := none
    detail := "Unknown error", dataJ := [] }

/-- JS `x || null` on the `code` field: falsy strings collapse to null. -/
def jsOrNull (c : Option String) : Option String :=
  match c with
  | some s => if s = "" then none else some s
  | none => none

/-- `apiCoreService.request`, as a function of the effective `useAuth`
option (`params.useAuth === undefined ? true : params.useAuth`) and the
transport outcome.  Returns the envelope together with the list of
client-side navigations performed (`router.push` targets). -/
def requestApi (useAuth : Option Bool) (outcome : FetchOutcome) :
    ApiResponse × List String :=
  let auth := useAuth.getD true
  match outcome with
  | none => (genericError, [])
  | some resp =>
    match resp.jsonBody with
    | none => (genericError, [])
    | some body =>
      let navs := if auth = true ∧ resp.httpStatus = 401 then ["/logout"] else []
      ({ statusCode := resp.httpStatus, status := body.statusB
         code := jsOrNull body.code, detail := body.detail
         dataJ := body.dataJ }, navs)

/-! ## useCaptchaStore (Pinia store) -/

/-- State of the captcha Pinia store: shared flags plus the per-instance
token and verified records. -/
structure CaptchaStore where
  initFlag : Bool
  verifyingFlag : Bool
  hasErrorFlag : Bool
  errorVal : Option String
  tokens : List (String × Option String)
  verifiedMap : List (String × Bool)
deriving DecidableEq, Repr

/-- Fresh store state (all refs at their initial values). -/
def initialCaptchaStore : CaptchaStore :=
  { initFlag := false, verifyingFlag := false, hasErrorFlag := false
    errorVal := none, tokens := [], verifiedMap := [] }

/-- Store getter `isVerified`: double-negation of the record entry, so a
missing entry reads as false. -/
def storeIsVerified (s : CaptchaStore) (instanceId : String) : Bool :=
  (assocLookup s.verifiedMap instanceId).getD false

/-- Store getter `getToken`: the JS expression is the stored value
`|| null`, so a missing entry, a stored null and a stored empty string all
read as null. -/
def storeGetToken (s : CaptchaStore) (instanceId : String) : Option String :=
  match assocLookup s.tokens instanceId with
  | some (some t) => if t = "" then none else some t
  | _ => none

/-- Store action `setToken`: records the token; a truthy token marks the
instance verified and clears the shared error, a falsy one (null or the
empty string) marks it unverified. -/
def storeSetToken (s : CaptchaStore) (instanceId : String)
    (token : Option String) : CaptchaStore :=
  let s1 := { s with tokens := assocSet s.tokens instanceId token }
  match token with
  | some t =>
    if t = "" then
      { s1 with verifiedMap := assocSet s1.verifiedMap instanceId false }
    else
      { s1 with verifiedMap := assocSet s1.verifiedMap instanceId true
                hasErrorFlag := false, errorVal := none }
  | none => { s1 with verifiedMap := assocSet s1.verifiedMap instanceId false }

/-- Store action `clearToken`: null token and verified false. -/
def storeClearToken (s : CaptchaStore) (instanceId : String) : CaptchaStore :=
  { s with tokens := assocSet s.tokens instanceId none
           verifiedMap := assocSet s.verifiedMap instanceId false }

/-- Store action `setVerified`: writes the flag directly. -/
def storeSetVerified (s : CaptchaStore) (instanceId : String) (v : Bool) :
    CaptchaStore :=
  { s with verifiedMap := assocSet s.verifiedMap instanceId v }

/-- Store action `setInitialized`. -/
def storeSetInit (s : CaptchaStore) (v : Bool) : CaptchaStore :=
  { s with initFlag := v }

/-- Store action `setVerifying`. -/
def storeSetVerifying (s : CaptchaStore) (v : Bool) : CaptchaStore :=
  { s with verifyingFlag := v }

/-- Store action `setError`: `hasError` is the truthiness of the error. -/
def storeSetError (s : CaptchaStore) (e : Option String) : CaptchaStore :=
  { s with hasErrorFlag := e.isSome, errorVal := e }

/-- Store action `reset`: restores every ref to its initial value. -/
def storeReset (_ : CaptchaStore) : CaptchaStore := initialCaptchaStore

/-- The public actions of the captcha store. -/
inductive StoreAction where
  | actSetToken (instanceId : String) (token : Option String)
  | actClearToken (instanceId : String)
  | actSetVerified (instanceId : String) (v : Bool)
  | actSetInit (v : Bool)
  | actSetVerifying (v : Bool)
  | actSetError (e : Option String)
  | actReset
deriving DecidableEq, Repr

/-- Interpretation of a public store action. -/
def applyAction (s : CaptchaStore) : StoreAction → CaptchaStore
  | .actSetToken instanceId token => storeSetToken s instanceId token
  | .actClearToken instanceId => storeClearToken s instanceId
  | .actSetVerified instanceId v => storeSetVerified s instanceId v
  | .actSetInit v => storeSetInit s v
  | .actSetVerifying v => storeSetVerifying s v
  | .actSetError e => storeSetError s e
  | .actReset => storeReset s

/-- Run a sequence of public actions from the initial store state. -/
def runActions (l : List StoreAction) : CaptchaStore :=
  l.foldl applyAction initialCaptchaStore

/-- Whether an action is the direct `setVerified` writer. -/
def isSetVerifiedAct : StoreAction → Bool
  | .actSetVerified _ _ => true
  | _ => false

/-! ## useCaptchaHandler.ts -/

/-- State visible to one `useCaptchaHandler` composable: the shared store,
this composable's `turnstileWidgets` record (instance id to the optional
`widgetId` field of its entry), and whether `window.turnstile` exists. -/
structure HandlerState where
  store : CaptchaStore
  widgets : List (String × Option String)
  turnstileLoaded : Bool
deriving DecidableEq, Repr

/-- The truthy widget handle for an instance, if any: an absent record
entry, an entry without `widgetId` and an empty-string id are all falsy. -/
def widgetHandle (h : HandlerState) (instanceId : String) : Option String :=
  match assocLookup h.widgets instanceId with
  | some (some w) => if w = "" then none else some w
  | _ => none

/-- Synchronous effect of `reset(instanceId)` in useCaptchaHandler.ts: a
no-op unless Turnstile is loaded and a truthy widget handle is registered,
in which case the store token is cleared and verified is forced to false
before the vendor reset is invoked.  The delayed destroy-and-recreate runs
in a later `setTimeout` tick, after `reset` has returned. -/
def handlerReset (h : HandlerState) (instanceId : String) : HandlerState :=
  if h.turnstileLoaded = false then h
  else
    match widgetHandle h instanceId with
    | some _ =>
      { h with store :=
          storeSetVerified (storeClearToken h.store instanceId) instanceId false }
    | none => h

/-- A JS throwable reaching the vendor error callback: either a real
`Error` or an arbitrary value to be stringified. -/
inductive JsThrown where
  | errObj (msg : String)
  | rawVal (text : String)
deriving DecidableEq, Repr

/-- `error instanceof Error ? error : new Error(String(error))`, modelled
by the message of the resulting `Error`. -/
def normalizeError : JsThrown → String
  | .errObj m => m
  | .rawVal t => t

/-- Store effect of the widget `callback` (success) wired in
`renderWidget`: `captchaStore.setToken(instanceId, token)`. -/
def successCallbackStep (s : CaptchaStore) (instanceId : String)
    (token : String) : CaptchaStore :=
  storeSetToken s instanceId (some token)

/-- Store effect of the widget `expired-callback` wired in `renderWidget`:
`captchaStore.clearToken(instanceId)`. -/
def expiredCallbackStep (s : CaptchaStore) (instanceId : String) :
    CaptchaStore :=
  storeClearToken s instanceId

/-- Store effect of the widget `error-callback` wired in `renderWidget`:
normalize the throwable and `captchaStore.setError(errorObj)`; the token
record is not touched. -/
def errorCallbackStep (s : CaptchaStore) (e : JsThrown) : CaptchaStore :=
  storeSetError s (some (normalizeError e))

/-! ## Script loading (loadTurnstileScript / ensureInitialized) -/

/-- Observable world state for the script loader: the store's initialized
flag, whether `window.turnstile` exists, whether a vendor script tag is in
the DOM, how many script tags have been appended, and whether a load error
was recorded in shared state. -/
structure ScriptWorld where
  storeInitFlag : Bool
  turnstileGlobal : Bool
  scriptTagInDom : Bool
  appendCount : Nat
  errorFlag : Bool
deriving DecidableEq, Repr

/-- Oracle for the asynchronous outcomes of one loading attempt. -/
structure LoadOutcome where
  /-- While polling an existing tag, the vendor global appears in time. -/
  apiAppears : Bool
  /-- A freshly injected script loads and fires the vendor callback. -/
  scriptLoads : Bool
deriving DecidableEq, Repr

/-- `loadTurnstileScript` as a world transformer: result `true` means the
returned promise resolved.  If `window.turnstile` already exists it
resolves at once (without touching the store flag); if a matching script
tag is already in the DOM it polls, never injecting; otherwise it appends
exactly one script tag and waits for the load callback. -/
def loadTurnstileScriptW (w : ScriptWorld) (oc : LoadOutcome) :
    Bool × ScriptWorld :=
  if w.turnstileGlobal then (true, w)
  else if w.scriptTagInDom then
    if oc.apiAppears then
      (true, { w with storeInitFlag := true, turnstileGlobal := true })
    else (false, w)
  else
    let w1 := { w with scriptTagInDom := true
                       appendCount := w.appendCount + 1 }
    if oc.scriptLoads then
      (true, { w1 with storeInitFlag := true, turnstileGlobal := true })
    else (false, w1)

/-- `ensureInitialized`: immediate `true` when the store flag is set,
otherwise await the loader, converting a rejection into `false` after
recording the error in shared state. -/
def ensureInitializedW (w : ScriptWorld) (oc : LoadOutcome) :
    Bool × ScriptWorld :=
  if w.storeInitFlag then (true, w)
  else
    match loadTurnstileScriptW w oc with
    | (true, w2) => (true, w2)
    | (false, w2) => (false, { w2 with errorFlag := true })

/-! ## useTranslations.ts -/

/-- A JS parameter record passed to the render-translation capability. -/
abbrev Params := List (String × String)

/-- A value inside the raw localized data: either a message reference or a
flat object of sub-keys to message references. -/
inductive TMsg where
  | str (s : String)
  | obj (props : List (String × String))
deriving DecidableEq, Repr

/-- The raw localized data returned by the message-lookup capability
`tm`: an array of values or an object of keyed values (entries listed in
insertion order). -/
inductive TData where
  | arr (items : List TMsg)
  | obj (entries : List (String × TMsg))
deriving DecidableEq, Repr

/-- A value in the processed output: a translated string, or (object mode
only) a nested record of translated properties. -/
inductive OutVal where
  | s (v : String)
  | o (props : List (String × String))
deriving DecidableEq, Repr

/-- A processed JS record (`Record<string, unknown>`). -/
abbrev ORecord := List (String × OutVal)

/-- The result of `processTranslations`: an array of records or one
record. -/
inductive TResult where
  | arr (records : List ORecord)
  | obj (record : ORecord)
deriving DecidableEq, Repr

/-- The `itemsParams` option: an array of parameter records indexed by
numeric position, or an object keyed by item key. -/
inductive ItemsParams where
  | arr (l : List Params)
  | obj (entries : List (String × Params))
deriving DecidableEq, Repr

/-- The raw value handed to a `transform` callback: the item value in
array mode, the whole source in object mode. -/
inductive RawVal where
  | item (m : TMsg)
  | whole (d : TData)

/-- The recognized `ITranslationOptions` configuration. -/
structure TranslationOptions where
  specificKey : Option String := none
  asArray : Bool := false
  sortBy : Option String := none
  reverse : Bool := false
  params : Option Params := none
  itemsParams : Option ItemsParams := none
  transform : Option (ORecord → String → RawVal → ORecord) := none

/-- JS truthiness of a raw value: only the empty string is falsy. -/
def truthyMsg : TMsg → Bool
  | .str s => !(s = "")
  | .obj _ => true

/-- `isValidObject`/`isValidArray` of useTranslations.ts combined over the
two shapes: a non-empty object or a non-empty array. -/
def hasData : TData → Bool
  | .arr l => !l.isEmpty
  | .obj l => !l.isEmpty

/-- Canonical JS array-index string: a non-empty digit string without a
leading zero (except "0" itself); the 2^32-2 bound is irrelevant at the
sizes involved. -/
def canonIdx (k : String) : Option Nat :=
  match k.data with
  | [] => none
  | c :: cs =>
    if (c :: cs).all (fun c2 => c2.isDigit) then
      if c = '0' ∧ cs ≠ [] then none
      else some (digitsValue (c :: cs) 0)
    else none

/-- JS property read `translationData[k]` over either source shape
(array access modelled for canonical index keys). -/
def dataLookup : TData → String → Option TMsg
  | .arr l, k => (canonIdx k).bind (fun i => l[i]?)
  | .obj l, k => assocLookup l k

/-- The guard `options.specificKey && translationData[options.specificKey]`:
the key and the stored value must both be truthy. -/
def specLookup (data : TData) (o : TranslationOptions) :
    Option (String × TMsg) :=
  match o.specificKey with
  | some k =>
    if k = "" then none
    else
      match dataLookup data k with
      | some v => if truthyMsg v then some (k, v) else none
      | none => none
  | none => none

/-- `getItemParams`: per-item parameters resolved from `itemsParams`
(numeric index into an array, key into a non-empty object), spread over
the global `params`; the global `params` when nothing matches. -/
def getItemParams (itemKey : String) (o : TranslationOptions) :
    Option Params :=
  match o.itemsParams with
  | none => o.params
  | some (.arr l) =>
    match jsParseInt itemKey with
    | some i =>
      if 0 ≤ i ∧ i < (l.length : Int) then
        some ((o.params.getD []) ++ l.getD i.toNat [])
      else o.params
    | none => o.params
  | some (.obj entries) =>
    if entries ≠ [] ∧ (assocLookup entries itemKey).isSome then
      some ((o.params.getD []) ++ (assocLookup entries itemKey).getD [])
    else o.params

/-- The `itemsParams` entry matching an item key, if any (the entry whose
spread `getItemParams` applies). -/
def itemsEntryFor (o : TranslationOptions) (itemKey : String) :
    Option Params :=
  match o.itemsParams with
  | none => none
  | some (.arr l) =>
    match jsParseInt itemKey with
    | some i =>
      if 0 ≤ i ∧ i < (l.length : Int) then some (l.getD i.toNat [])
      else none
    | none => none
  | some (.obj entries) =>
    if entries ≠ [] then assocLookup entries itemKey else none

/-- Effective lookup into a parameter record built by JS spreads: the last
occurrence of a key wins. -/
def pLookup (p : Params) (k : String) : Option String :=
  assocLookup p.reverse k

/-- `Array.isArray(translationData)`. -/
def isArrType : TData → Bool
  | .arr _ => true
  | .obj _ => false

/-- The array-like test of processTranslations: an object all of whose
keys have a parseInt-parseable prefix. -/
def isArrayLike : TData → Bool
  | .arr _ => false
  | .obj l => l.all (fun e => (jsParseInt e.1).isSome)

/-- Whether the array-producing branch runs. -/
def arrayMode (data : TData) (o : TranslationOptions) : Bool :=
  isArrType data || isArrayLike data || o.asArray

/-- Comparator ordering JS `Object.entries` integer-indexed keys first. -/
def idxKeyCmp (a b : String × TMsg) : Int :=
  ((canonIdx a.1).getD 0 : Int) - ((canonIdx b.1).getD 0 : Int)

/-- JS `Object.entries` enumeration order: canonical integer-index keys
ascending, then the remaining keys in insertion order. -/
def jsEntries (l : List (String × TMsg)) : List (String × TMsg) :=
  sortJs idxKeyCmp (l.filter (fun e => (canonIdx e.1).isSome)) ++
    l.filter (fun e => (canonIdx e.1).isNone)

/-- Index an array source as string-keyed entries. -/
def withIdx (l : List TMsg) : List (String × TMsg) :=
  ((List.range l.length).zip l).map (fun p => (toString p.1, p.2))

/-- The ordered (key, value) pairs the algorithm iterates over. -/
def tEntries : TData → List (String × TMsg)
  | .arr l => withIdx l
  | .obj l => jsEntries l

/-- Array-mode processing of one entry: the record starts as a bare
`id`, object values contribute one translated property each, scalar
values a translated `value`; then the optional transform runs. -/
def procItem (rt : TMsg → Params → String) (o : TranslationOptions)
    (e : String × TMsg) : ORecord :=
  let ps := (getItemParams e.1 o).getD []
  let base : ORecord :=
    match e.2 with
    | .obj props =>
      props.foldl (fun r pp => assocSet r pp.1 (OutVal.s (rt (.str pp.2) ps)))
        [("id", OutVal.s e.1)]
    | .str s =>
      assocSet [("id", OutVal.s e.1)] "value" (OutVal.s (rt (.str s) ps))
  match o.transform with
  | some f => f base e.1 (.item e.2)
  | none => base

/-- JS coercion of an output value to the primitive the comparator sees. -/
def primOf : OutVal → String
  | .s v => v
  | .o _ => "[object Object]"

/-- The `sortBy` comparator of processTranslations; a comparison against
an absent property is NaN-like and yields 0 (ECMAScript SortCompare). -/
def jsCmpProp (p : String) (a b : ORecord) : Int :=
  match assocLookup a p, assocLookup b p with
  | some x, some y =>
    if primOf x < primOf y then -1
    else if primOf y < primOf x then 1
    else 0
  | _, _ => 0

/-- `parseInt(record.id, 10)` as used by the default sort. -/
def idNum (r : ORecord) : Option Int :=
  (assocLookup r "id").bind (fun v => jsParseInt (primOf v))

/-- The default numeric-id comparator; a NaN difference yields 0
(ECMAScript SortCompare). -/
def jsCmpId (a b : ORecord) : Int :=
  match idNum a, idNum b with
  | some m, some n => m - n
  | _, _ => 0

/-- All mapped records, in entry order, before sorting. -/
def arrayRecords (rt : TMsg → Params → String) (data : TData)
    (o : TranslationOptions) : List ORecord :=
  (tEntries data).map (procItem rt o)

/-- The records after the sort stage: by `sortBy` when given, else by
numeric id for arrays and array-like objects, else untouched. -/
def arraySorted (rt : TMsg → Params → String) (data : TData)
    (o : TranslationOptions) : List ORecord :=
  match o.sortBy with
  | some p => sortJs (jsCmpProp p) (arrayRecords rt data o)
  | none =>
    if isArrayLike data || isArrType data then
      sortJs jsCmpId (arrayRecords rt data o)
    else arrayRecords rt data o

/-- The array branch result: the sorted records, reversed on request. -/
def arrayFinal (rt : TMsg → Params → String) (data : TData)
    (o : TranslationOptions) : List ORecord :=
  if o.reverse then (arraySorted rt data o).reverse else arraySorted rt data o

/-- Object-mode processing: translate each entry (nested objects
property-wise) into the result record under the original key. -/
def objectRecord (rt : TMsg → Params → String) (data : TData)
    (o : TranslationOptions) : ORecord :=
  (tEntries data).foldl
    (fun res e =>
      let ps := (getItemParams e.1 o).getD []
      match e.2 with
      | .obj props =>
        assocSet res e.1 (OutVal.o
          (props.foldl (fun pr pp => assocSet pr pp.1 (rt (.str pp.2) ps)) []))
      | .str s => assocSet res e.1 (OutVal.s (rt (.str s) ps)))
    []

/-- The object branch result, with the single whole-result transform
call. -/
def objectFinal (rt : TMsg → Params → String) (data : TData)
    (o : TranslationOptions) : ORecord :=
  match o.transform with
  | some f => f (objectRecord rt data o) "" (.whole data)
  | none => objectRecord rt data o

/-- The specific-key short-circuit: one translated entry, shaped by
`asArray`. -/
def specificResult (rt : TMsg → Params → String) (o : TranslationOptions)
    (k : String) (v : TMsg) : TResult :=
  let ps := (getItemParams k o).getD []
  let tv := rt v ps
  if o.asArray then .arr [[("id", OutVal.s k), ("value", OutVal.s tv)]]
  else .obj [(k, OutVal.s tv)]

/-- `processTranslations` of useTranslations.ts, parameterized by the
render-translation capability `rt`. -/
def processTranslations (rt : TMsg → Params → String) (data : TData)
    (o : TranslationOptions) : TResult :=
  if hasData data = false then (if o.asArray then .arr [] else .obj [])
  else
    match specLookup data o with
    | some kv => specificResult rt o kv.1 kv.2
    | none =>
      if arrayMode data o then .arr (arrayFinal rt data o)
      else .obj (objectFinal rt data o)

/-- Shape of a result. -/
def isArrayRes : TResult → Bool
  | .arr _ => true
  | .obj _ => false

/-- The claim language's notion of an all-numeric-string key set (pure
digit strings), strictly narrower than the code's parseInt test. -/
def isNumericString (s : String) : Bool :=
  !(s = "") && s.data.all (fun c => c.isDigit)

/-- Whether every key of an object source is a pure numeric string. -/
def allNumericKeys : TData → Bool
  | .arr _ => false
  | .obj l => l.all (fun e => isNumericString e.1)

/-- The sort key a record exposes for a `sortBy` property. -/
def sortKeyStr (p : String) (r : ORecord) : String :=
  primOf ((assocLookup r p).getD (OutVal.s ""))

/-- The numeric id a record exposes for the default sort. -/
def idNumD (r : ORecord) : Int := (idNum r).getD 0

/-- Replace only the `reverse` flag of a configuration. -/
def setReverse (o : TranslationOptions) (b : Bool) : TranslationOptions :=
  { o with reverse := b }

/-- Reverse the sequence of an array-shaped result. -/
def treverse : TResult → TResult
  | .arr l => .arr l.reverse
  | .obj r => .obj r

/-- A concrete render-translation capability used by closed instances:
returns the message text itself. -/
def rtPlain : TMsg → Params → String :=
  fun m _ =>
    match m with
    | .str s => s
    | .obj _ => "[object Object]"

/-! ## Theorems for apiCore.service.ts -/

/-- C7: if the underlying fetch rejects, or the response body fails to
parse, `apiCoreService.request` returns exactly the generic-error envelope
and performs no navigation (the exception is swallowed by the catch). -/
theorem request_generic_error_on_transport_failure
    (useAuth : Option Bool) (oc : FetchOutcome)
    (hfail : oc = none ∨ ∃ r, oc = some r ∧ r.jsonBody = none) :
    requestApi useAuth oc = (genericError, []) := by
  rcases hfail with h | ⟨r, hr, hb⟩
  · subst h; rfl
  · subst hr; simp [requestApi, hb]

/-- Witness for C7 at a concrete rejected fetch. -/
theorem request_generic_error_witness :
    requestApi (some true) none = (genericError, []) :=
  request_generic_error_on_transport_failure (some true) none (Or.inl rfl)

/-- C8 counterexample: a 401 response whose body fails to parse, with
authentication enabled, produces no navigation at all (the parse exception
reaches the catch before `router.push` runs), so the claim that every
authenticated 401 triggers a navigation to the logout route is false. -/
theorem request_401_no_redirect_counterexample :
    (requestApi (some true) (some (HttpResp.mk 401 none))).2 = [] ∧
      (requestApi (some true) (some (HttpResp.mk 401 none))).1 = genericError := by
  exact ⟨rfl, rfl⟩

/-- C8 (amended): for requests with authentication enabled whose 401
response body parses successfully, `request` pushes the `/logout` route and
still returns the parsed envelope; with `useAuth: false` no navigation ever
occurs. -/
theorem request_401_redirect (useAuth : Option Bool) (oc : FetchOutcome) :
    (∀ resp body, oc = some resp → resp.jsonBody = some body →
        resp.httpStatus = 401 → useAuth.getD true = true →
        requestApi useAuth oc =
          ({ statusCode := 401, status := body.statusB
             code := jsOrNull body.code, detail := body.detail
             dataJ := body.dataJ }, ["/logout"])) ∧
      (useAuth = some false → (requestApi useAuth oc).2 = []) := by
  constructor
  · intro resp body hoc hb hs ha
    subst hoc
    simp [requestApi, hb, hs, ha]
  · intro hfalse
    subst hfalse
    rcases oc with _ | resp
    · rfl
    · rcases hb : resp.jsonBody with _ | body
      · simp [requestApi, hb]
      · simp [requestApi, hb]

/-- Witness for C8 at a concrete authenticated 401 with a parsed body. -/
theorem request_401_redirect_witness :
    requestApi (some true)
        (some (HttpResp.mk 401 (some (ResponseJson.mk false (some "expired")
          "Credenciales invalidas" [])))) =
      ({ statusCode := 401, status := false, code := some "expired"
         detail := "Credenciales invalidas", dataJ := [] }, ["/logout"]) := by
  have h := (request_401_redirect (some true)
    (some (HttpResp.mk 401 (some (ResponseJson.mk false (some "expired")
      "Credenciales invalidas" []))))).1
  simpa using h _ _ rfl rfl rfl rfl

/-! ## Association-list lemmas -/

/-- Reading a cons cell: the head answers when its key matches. -/
theorem assocLookup_cons {β : Type} (k2 : String) (v2 : β)
    (rest : List (String × β)) (j : String) :
    assocLookup ((k2, v2) :: rest) j =
      if k2 = j then some v2 else assocLookup rest j := by
  by_cases h : k2 = j
  · subst h
    simp [assocLookup]
  · simp only [if_neg h, assocLookup]
    rw [List.find?_cons_of_neg]
    simp [h]

/-- Full characterization of reading after a JS-style assignment. -/
theorem assocLookup_set {β : Type} (l : List (String × β)) (k j : String)
    (v : β) :
    assocLookup (assocSet l k v) j =
      if j = k then some v else assocLookup l j := by
  induction l with
  | nil =>
    show assocLookup [(k, v)] j = _
    rw [assocLookup_cons]
    by_cases h : j = k
    · simp [h]
    · simp [h, Ne.symm h, assocLookup]
  | cons p rest ih =>
    rcases p with ⟨k2, v2⟩
    by_cases hk : k2 = k
    · subst hk
      have hset : assocSet ((k2, v2) :: rest) k2 v = (k2, v) :: rest := by
        simp [assocSet]
      rw [hset, assocLookup_cons, assocLookup_cons]
      by_cases h : k2 = j
      · subst h
        simp
      · simp [h, Ne.symm h]
    · have hset : assocSet ((k2, v2) :: rest) k v = (k2, v2) :: assocSet rest k v := by
        simp [assocSet, hk]
      rw [hset, assocLookup_cons, assocLookup_cons, ih]
      by_cases h1 : k2 = j
      · subst h1
        simp [hk]
      · simp [h1]

/-- Reading back the key just assigned yields the assigned value. -/
theorem assocLookup_set_self {β : Type} (l : List (String × β)) (k : String)
    (v : β) : assocLookup (assocSet l k v) k = some v := by
  simp [assocLookup_set]

/-- Assignment to one key leaves every other key unchanged. -/
theorem assocLookup_set_ne {β : Type} (l : List (String × β)) (k j : String)
    (v : β) (hj : j ≠ k) :
    assocLookup (assocSet l k v) j = assocLookup l j := by
  simp [assocLookup_set, hj]

/-! ## Theorems for useCaptchaHandler.ts and the captcha store -/

/-- C1 counterexample: with the vendor script loaded but no widget handle
registered for the instance (for example when the token was set through a
widget rendered by a different `useCaptchaHandler` composable sharing the
store), `reset` logs a warning and leaves both the verified flag and the
token untouched, so the claim that `reset` always clears them, regardless
of prior state, is false. -/
theorem reset_noop_counterexample :
    storeIsVerified (handlerReset
        { store := { initFlag := true, verifyingFlag := false
                     hasErrorFlag := false, errorVal := none
                     tokens := [("a", some "t")]
                     verifiedMap := [("a", true)] }
          widgets := [], turnstileLoaded := true } "a").store "a" = true ∧
      storeGetToken (handlerReset
        { store := { initFlag := true, verifyingFlag := false
                     hasErrorFlag := false, errorVal := none
                     tokens := [("a", some "t")]
                     verifiedMap := [("a", true)] }
          widgets := [], turnstileLoaded := true } "a").store "a" = some "t" := by
  exact ⟨by decide, by decide⟩

/-- C1 (amended): when Turnstile is loaded and a truthy widget handle is
registered for the instance, `reset(instanceId)` leaves
`isVerified(instanceId) = false` and `getToken(instanceId) = null`
immediately after it returns; in every other case the call is a no-op on
the handler state. -/
theorem reset_clears_instance (h : HandlerState) (instanceId : String) :
    (h.turnstileLoaded = true → (widgetHandle h instanceId).isSome = true →
        storeIsVerified (handlerReset h instanceId).store instanceId = false ∧
          storeGetToken (handlerReset h instanceId).store instanceId = none) ∧
      (¬ (h.turnstileLoaded = true ∧ (widgetHandle h instanceId).isSome = true) →
        handlerReset h instanceId = h) := by
  constructor
  · intro hl hw
    rcases hwid : widgetHandle h instanceId with _ | wid
    · rw [hwid] at hw
      simp at hw
    · have hres : handlerReset h instanceId =
          { h with store := storeSetVerified (storeClearToken h.store instanceId) instanceId false } := by
        simp [handlerReset, hl, hwid]
      rw [hres]
      constructor
      · simp [storeIsVerified, storeSetVerified, storeClearToken,
          assocLookup_set_self]
      · simp [storeGetToken, storeSetVerified, storeClearToken,
          assocLookup_set_self]
  · intro hno
    rcases hload : h.turnstileLoaded with _ | _
    · simp [handlerReset, hload]
    · rcases hwid : widgetHandle h instanceId with _ | wid
      · simp [handlerReset, hload, hwid]
      · exact absurd ⟨hload, by simp [hwid]⟩ hno

/-- Witness for C1 at a concrete loaded handler with a registered widget. -/
theorem reset_clears_instance_witness :
    storeIsVerified (handlerReset
        { store := { initFlag := true, verifyingFlag := false
                     hasErrorFlag := false, errorVal := none
                     tokens := [("a", some "t")]
                     verifiedMap := [("a", true)] }
          widgets := [("a", some "w1")], turnstileLoaded := true } "a").store
        "a" = false ∧
      storeGetToken (handlerReset
        { store := { initFlag := true, verifyingFlag := false
                     hasErrorFlag := false, errorVal := none
                     tokens := [("a", some "t")]
                     verifiedMap := [("a", true)] }
          widgets := [("a", some "w1")], turnstileLoaded := true } "a").store
        "a" = none :=
  (reset_clears_instance
    { store := { initFlag := true, verifyingFlag := false
                 hasErrorFlag := false, errorVal := none
                 tokens := [("a", some "t")]
                 verifiedMap := [("a", true)] }
      widgets := [("a", some "w1")], turnstileLoaded := true } "a").1
    (by decide) (by decide)

/-- C2 counterexample: firing the vendor error callback on a verified
instance leaves its token and verified flag untouched (only the shared
error state changes), so the claim that the error callback clears the
instance token is false. -/
theorem error_callback_keeps_token_counterexample :
    storeGetToken (errorCallbackStep
        { initFlag := true, verifyingFlag := false, hasErrorFlag := false
          errorVal := none, tokens := [("a", some "t")]
          verifiedMap := [("a", true)] } (JsThrown.rawVal "boom")) "a" =
        some "t" ∧
      storeIsVerified (errorCallbackStep
        { initFlag := true, verifyingFlag := false, hasErrorFlag := false
          errorVal := none, tokens := [("a", some "t")]
          verifiedMap := [("a", true)] } (JsThrown.rawVal "boom")) "a" =
        true := by
  exact ⟨by decide, by decide⟩

/-- C2 (amended): the vendor expiry callback clears the instance token and
resets its verified flag; the vendor error callback normalizes the
throwable into an Error and records it in shared error state, leaving the
instance token and verified flag unchanged. -/
theorem expiry_clears_error_records (s : CaptchaStore) (instanceId : String)
    (e : JsThrown) :
    (storeGetToken (expiredCallbackStep s instanceId) instanceId = none ∧
        storeIsVerified (expiredCallbackStep s instanceId) instanceId = false) ∧
      ((errorCallbackStep s e).tokens = s.tokens ∧
        (errorCallbackStep s e).verifiedMap = s.verifiedMap ∧
        (errorCallbackStep s e).errorVal = some (normalizeError e) ∧
        (errorCallbackStep s e).hasErrorFlag = true) := by
  refine ⟨⟨?_, ?_⟩, rfl, rfl, rfl, rfl⟩
  · simp [expiredCallbackStep, storeGetToken, storeClearToken,
      assocLookup_set_self]
  · simp [expiredCallbackStep, storeIsVerified, storeClearToken,
      assocLookup_set_self]

/-- C6 counterexample: the public action `setVerified` writes the verified
flag without touching the token record, so after
`setVerified('a', true)` from the initial state the instance is verified
with no token set, refuting the claimed invariant over all public
actions. -/
theorem verified_without_token_counterexample :
    storeIsVerified (runActions [StoreAction.actSetVerified "a" true]) "a" =
        true ∧
      storeGetToken (runActions [StoreAction.actSetVerified "a" true]) "a" =
        none := by
  exact ⟨by decide, by decide⟩

/-- Every public action other than `setVerified` preserves the
verified-iff-token invariant. -/
theorem applyAction_preserves_inv (s : CaptchaStore) (a : StoreAction)
    (ha : isSetVerifiedAct a = false)
    (hs : ∀ j, storeIsVerified s j = (storeGetToken s j).isSome) (j : String) :
    storeIsVerified (applyAction s a) j =
      (storeGetToken (applyAction s a) j).isSome := by
  cases a with
  | actSetToken instanceId token =>
    by_cases hj : j = instanceId
    · subst hj
      rcases token with _ | t
      · simp [applyAction, storeSetToken, storeIsVerified, storeGetToken,
          assocLookup_set_self]
      · by_cases ht : t = ""
        · subst ht
          simp [applyAction, storeSetToken, storeIsVerified, storeGetToken,
            assocLookup_set_self]
        · simp [applyAction, storeSetToken, ht, storeIsVerified, storeGetToken,
            assocLookup_set_self]
    · have htok : storeGetToken (applyAction s (.actSetToken instanceId token)) j =
          storeGetToken s j := by
        rcases token with _ | t
        · simp [applyAction, storeSetToken, storeGetToken,
            assocLookup_set_ne _ _ _ _ hj]
        · by_cases ht : t = ""
          · subst ht
            simp [applyAction, storeSetToken, storeGetToken,
              assocLookup_set_ne _ _ _ _ hj]
          · simp [applyAction, storeSetToken, ht, storeGetToken,
              assocLookup_set_ne _ _ _ _ hj]
      have hver : storeIsVerified (applyAction s (.actSetToken instanceId token)) j =
          storeIsVerified s j := by
        rcases token with _ | t
        · simp [applyAction, storeSetToken, storeIsVerified,
            assocLookup_set_ne _ _ _ _ hj]
        · by_cases ht : t = ""
          · subst ht
            simp [applyAction, storeSetToken, storeIsVerified,
              assocLookup_set_ne _ _ _ _ hj]
          · simp [applyAction, storeSetToken, ht, storeIsVerified,
              assocLookup_set_ne _ _ _ _ hj]
      rw [htok, hver]
      exact hs j
  | actClearToken instanceId =>
    by_cases hj : j = instanceId
    · subst hj
      simp [applyAction, storeClearToken, storeIsVerified, storeGetToken,
        assocLookup_set_self]
    · simp [applyAction, storeClearToken, storeIsVerified, storeGetToken,
        assocLookup_set_ne _ _ _ _ hj]
      exact hs j
  | actSetVerified instanceId v =>
    simp [isSetVerifiedAct] at ha
  | actSetInit v =>
    simpa [applyAction, storeSetInit, storeIsVerified, storeGetToken] using hs j
  | actSetVerifying v =>
    simpa [applyAction, storeSetVerifying, storeIsVerified, storeGetToken]
      using hs j
  | actSetError e =>
    simpa [applyAction, storeSetError, storeIsVerified, storeGetToken]
      using hs j
  | actReset =>
    simp [applyAction, storeReset, initialCaptchaStore, storeIsVerified,
      storeGetToken, assocLookup]

/-- C6 (amended): for every sequence of public captcha-store actions that
does not use `setVerified`, and every instance id, the verified flag reads
true exactly when a (truthy) token is set for that instance.  The direct
`setVerified` writer can break the correspondence in both directions. -/
theorem store_verified_iff_token (l : List StoreAction)
    (hl : ∀ a ∈ l, isSetVerifiedAct a = false) (instanceId : String) :
    storeIsVerified (runActions l) instanceId =
      (storeGetToken (runActions l) instanceId).isSome := by
  have main : ∀ (acts : List StoreAction) (s : CaptchaStore),
      (∀ a ∈ acts, isSetVerifiedAct a = false) →
      (∀ j, storeIsVerified s j = (storeGetToken s j).isSome) →
      ∀ j, storeIsVerified (acts.foldl applyAction s) j =
        (storeGetToken (acts.foldl applyAction s) j).isSome := by
    intro acts
    induction acts with
    | nil => intro s _ hs j; exact hs j
    | cons a rest ih =>
      intro s hacts hs j
      have ha : isSetVerifiedAct a = false := hacts a (List.mem_cons_self a rest)
      have hrest : ∀ b ∈ rest, isSetVerifiedAct b = false := fun b hb =>
        hacts b (List.mem_cons_of_mem a hb)
      exact ih (applyAction s a) hrest
        (applyAction_preserves_inv s a ha hs) j
  have hinit : ∀ j, storeIsVerified initialCaptchaStore j =
      (storeGetToken initialCaptchaStore j).isSome := by
    intro j
    simp [initialCaptchaStore, storeIsVerified, storeGetToken, assocLookup]
  exact main l initialCaptchaStore hl hinit instanceId

/-- Witness for C6 on a concrete setVerified-free action sequence. -/
theorem store_verified_iff_token_witness :
    storeIsVerified (runActions
        [StoreAction.actSetToken "a" (some "tok"),
         StoreAction.actClearToken "b"]) "a" =
      (storeGetToken (runActions
        [StoreAction.actSetToken "a" (some "tok"),
         StoreAction.actClearToken "b"]) "a").isSome :=
  store_verified_iff_token
    [StoreAction.actSetToken "a" (some "tok"),
     StoreAction.actClearToken "b"] (by decide) "a"

/-- C9: across two sequential `ensureInitialized` calls the script tag is
appended at most once; a call that starts with the store flag set returns
true immediately and changes nothing; and when a matching script tag is
already in the DOM no further tag is ever inserted. -/
theorem ensure_initialized_idempotent (w : ScriptWorld) (oc1 oc2 : LoadOutcome) :
    ((ensureInitializedW (ensureInitializedW w oc1).2 oc2).2.appendCount ≤
        w.appendCount + 1) ∧
      (w.storeInitFlag = true → ensureInitializedW w oc1 = (true, w)) ∧
      (w.scriptTagInDom = true →
        (ensureInitializedW (ensureInitializedW w oc1).2 oc2).2.appendCount =
          w.appendCount) := by
  rcases w with ⟨init0, glob0, dom0, n0, err0⟩
  rcases oc1 with ⟨api1, load1⟩
  rcases oc2 with ⟨api2, load2⟩
  cases init0 <;> cases glob0 <;> cases dom0 <;>
    cases api1 <;> cases load1 <;> cases api2 <;> cases load2 <;>
    simp [ensureInitializedW, loadTurnstileScriptW]

/-- Witness for C9 at a concrete world with the store flag set. -/
theorem ensure_initialized_idempotent_witness :
    ensureInitializedW
        { storeInitFlag := true, turnstileGlobal := true
          scriptTagInDom := true, appendCount := 1, errorFlag := false }
        { apiAppears := false, scriptLoads := false } =
      (true,
        { storeInitFlag := true, turnstileGlobal := true
          scriptTagInDom := true, appendCount := 1, errorFlag := false }) :=
  (ensure_initialized_idempotent
    { storeInitFlag := true, turnstileGlobal := true
      scriptTagInDom := true, appendCount := 1, errorFlag := false }
    { apiAppears := false, scriptLoads := false }
    { apiAppears := false, scriptLoads := false }).2.1 rfl

/-! ## Stable sort lemmas -/

/-- Membership through stable insertion. -/
theorem mem_insertJs {α : Type} (cmp : α → α → Int) (x : α) (l : List α)
    (a : α) : a ∈ insertJs cmp x l ↔ a = x ∨ a ∈ l := by
  induction l with
  | nil => simp [insertJs]
  | cons y ys ih =>
    by_cases h : cmp x y ≤ 0
    · simp [insertJs, h]
    · simp [insertJs, h, ih]
      tauto

/-- Membership through the stable sort. -/
theorem mem_sortJs {α : Type} (cmp : α → α → Int) (l : List α) (a : α) :
    a ∈ sortJs cmp l ↔ a ∈ l := by
  induction l with
  | nil => simp [sortJs]
  | cons x xs ih => simp [sortJs, mem_insertJs, ih]

/-- Stable insertion preserves sortedness, for a comparator that agrees
with a key order on the involved elements. -/
theorem insertJs_pairwise {α K : Type} [LinearOrder K] (k : α → K)
    (cmp : α → α → Int) (x : α) (l : List α)
    (hc : ∀ a b, (a = x ∨ a ∈ l) → (b = x ∨ b ∈ l) →
      (cmp a b ≤ 0 ↔ k a ≤ k b))
    (hl : l.Pairwise (fun a b => k a ≤ k b)) :
    (insertJs cmp x l).Pairwise (fun a b => k a ≤ k b) := by
  induction l with
  | nil => simp [insertJs]
  | cons y ys ih =>
    rw [List.pairwise_cons] at hl
    by_cases h : cmp x y ≤ 0
    · have hxy : k x ≤ k y :=
        (hc x y (Or.inl rfl) (Or.inr (List.mem_cons_self y ys))).1 h
      rw [insertJs, if_pos h, List.pairwise_cons]
      refine ⟨?_, ?_⟩
      · intro b hb
        rcases List.mem_cons.1 hb with hb | hb
        · exact hb ▸ hxy
        · exact le_trans hxy (hl.1 b hb)
      · rw [List.pairwise_cons]
        exact hl
    · have hyx : k y ≤ k x := by
        have hn : ¬ k x ≤ k y :=
          fun hle => h ((hc x y (Or.inl rfl)
            (Or.inr (List.mem_cons_self y ys))).2 hle)
        exact le_of_not_le hn
      rw [insertJs, if_neg h, List.pairwise_cons]
      refine ⟨?_, ?_⟩
      · intro b hb
        rcases (mem_insertJs cmp x ys b).1 hb with hb | hb
        · exact hb ▸ hyx
        · exact hl.1 b hb
      · refine ih ?_ hl.2
        intro a b ha hb
        refine hc a b ?_ ?_
        · rcases ha with ha | ha
          · exact Or.inl ha
          · exact Or.inr (List.mem_cons_of_mem y ha)
        · rcases hb with hb | hb
          · exact Or.inl hb
          · exact Or.inr (List.mem_cons_of_mem y hb)

/-- The stable sort produces a non-decreasing sequence of keys, for a
comparator that agrees with a key order on the list's elements. -/
theorem sortJs_pairwise {α K : Type} [LinearOrder K] (k : α → K)
    (cmp : α → α → Int) (l : List α)
    (hc : ∀ a b, a ∈ l → b ∈ l → (cmp a b ≤ 0 ↔ k a ≤ k b)) :
    (sortJs cmp l).Pairwise (fun a b => k a ≤ k b) := by
  induction l with
  | nil => simp [sortJs]
  | cons x xs ih =>
    rw [sortJs]
    refine insertJs_pairwise k cmp x (sortJs cmp xs) ?_ ?_
    · intro a b ha hb
      have ha2 : a ∈ x :: xs := by
        rcases ha with ha | ha
        · exact ha ▸ List.mem_cons_self x xs
        · exact List.mem_cons_of_mem x ((mem_sortJs cmp xs a).1 ha)
      have hb2 : b ∈ x :: xs := by
        rcases hb with hb | hb
        · exact hb ▸ List.mem_cons_self x xs
        · exact List.mem_cons_of_mem x ((mem_sortJs cmp xs b).1 hb)
      exact hc a b ha2 hb2
    · refine ih ?_
      intro a b ha hb
      exact hc a b (List.mem_cons_of_mem x ha) (List.mem_cons_of_mem x hb)

/-- A Bool predicate deciding membership in a key class is false off the
class. -/
theorem predFalse_of_ne {α K : Type} (k : α → K) (v : K) (pred : α → Bool)
    (hpred : ∀ a, pred a = true ↔ k a = v) (a : α) (h : ¬ k a = v) :
    pred a = false := by
  rcases hb : pred a with _ | _
  · rfl
  · exact absurd ((hpred a).1 hb) h

/-- Stable insertion keeps each key class in order: the earlier element
is placed in front of its ties. -/
theorem insertJs_filter {α K : Type} [LinearOrder K] (k : α → K)
    (cmp : α → α → Int) (x : α) (l : List α) (v : K) (pred : α → Bool)
    (hpred : ∀ a, pred a = true ↔ k a = v)
    (hc : ∀ a b, (a = x ∨ a ∈ l) → (b = x ∨ b ∈ l) →
      (cmp a b ≤ 0 ↔ k a ≤ k b)) :
    (insertJs cmp x l).filter pred =
      if k x = v then x :: l.filter pred
      else l.filter pred := by
  induction l with
  | nil =>
    by_cases h : k x = v
    · simp [insertJs, h, (hpred x).2 h]
    · simp [insertJs, h, predFalse_of_ne k v pred hpred x h]
  | cons y ys ih =>
    by_cases h : cmp x y ≤ 0
    · rw [insertJs, if_pos h]
      by_cases hx : k x = v
      · simp [hx, (hpred x).2 hx, List.filter_cons]
      · simp [hx, predFalse_of_ne k v pred hpred x hx, List.filter_cons]
    · have hyx : k y < k x := by
        have hn : ¬ k x ≤ k y :=
          fun hle => h ((hc x y (Or.inl rfl)
            (Or.inr (List.mem_cons_self y ys))).2 hle)
        exact lt_of_not_le hn
      rw [insertJs, if_neg h]
      have ihy : (insertJs cmp x ys).filter pred =
          if k x = v then x :: ys.filter pred
          else ys.filter pred := by
        refine ih ?_
        intro a b ha hb
        refine hc a b ?_ ?_
        · rcases ha with ha | ha
          · exact Or.inl ha
          · exact Or.inr (List.mem_cons_of_mem y ha)
        · rcases hb with hb | hb
          · exact Or.inl hb
          · exact Or.inr (List.mem_cons_of_mem y hb)
      by_cases hx : k x = v
      · have hy : ¬ k y = v := by
          intro hy
          rw [hy, ← hx] at hyx
          exact lt_irrefl (k x) hyx
        simp [List.filter_cons, hx, predFalse_of_ne k v pred hpred y hy, ihy]
      · by_cases hy : k y = v
        · simp [List.filter_cons, hx, (hpred y).2 hy, ihy]
        · simp [List.filter_cons, hx,
            predFalse_of_ne k v pred hpred y hy, ihy]

/-- Stability of the stable sort: every key class keeps its original
relative order. -/
theorem sortJs_filter {α K : Type} [LinearOrder K] (k : α → K)
    (cmp : α → α → Int) (l : List α) (v : K) (pred : α → Bool)
    (hpred : ∀ a, pred a = true ↔ k a = v)
    (hc : ∀ a b, a ∈ l → b ∈ l → (cmp a b ≤ 0 ↔ k a ≤ k b)) :
    (sortJs cmp l).filter pred = l.filter pred := by
  induction l with
  | nil => simp [sortJs]
  | cons x xs ih =>
    rw [sortJs]
    have hstep := insertJs_filter k cmp x (sortJs cmp xs) v pred hpred ?_
    · have hxs : (sortJs cmp xs).filter pred = xs.filter pred := by
        refine ih ?_
        intro a b ha hb
        exact hc a b (List.mem_cons_of_mem x ha) (List.mem_cons_of_mem x hb)
      rw [hstep, hxs]
      by_cases hx : k x = v
      · simp [List.filter_cons, hx, (hpred x).2 hx]
      · simp [List.filter_cons, hx, predFalse_of_ne k v pred hpred x hx]
    · intro a b ha hb
      have ha2 : a ∈ x :: xs := by
        rcases ha with ha | ha
        · exact ha ▸ List.mem_cons_self x xs
        · exact List.mem_cons_of_mem x ((mem_sortJs cmp xs a).1 ha)
      have hb2 : b ∈ x :: xs := by
        rcases hb with hb | hb
        · exact hb ▸ List.mem_cons_self x xs
        · exact List.mem_cons_of_mem x ((mem_sortJs cmp xs b).1 hb)
      exact hc a b ha2 hb2

/-! ## Comparator and parameter lemmas -/

/-- When both records expose the `sortBy` property, the JS comparator
agrees with the string order of the exposed keys. -/
theorem jsCmpProp_le_iff (p : String) (a b : ORecord)
    (ha : (assocLookup a p).isSome = true)
    (hb : (assocLookup b p).isSome = true) :
    jsCmpProp p a b ≤ 0 ↔ sortKeyStr p a ≤ sortKeyStr p b := by
  rcases hx : assocLookup a p with _ | x
  · rw [hx] at ha
    simp at ha
  rcases hy : assocLookup b p with _ | y
  · rw [hy] at hb
    simp at hb
  rw [jsCmpProp, hx, hy]
  rw [sortKeyStr, sortKeyStr, hx, hy]
  simp only [Option.getD_some]
  by_cases h1 : primOf x < primOf y
  · simp [h1, le_of_lt h1]
  · by_cases h2 : primOf y < primOf x
    · simp [h1, h2, not_le.mpr h2]
    · simp [h1, h2, le_of_not_lt h2]

/-- When both records expose a parseable numeric id, the default
comparator agrees with the numeric order of the ids. -/
theorem jsCmpId_le_iff (a b : ORecord)
    (ha : (idNum a).isSome = true) (hb : (idNum b).isSome = true) :
    jsCmpId a b ≤ 0 ↔ idNumD a ≤ idNumD b := by
  rcases hx : idNum a with _ | m
  · rw [hx] at ha
    simp at ha
  rcases hy : idNum b with _ | n
  · rw [hy] at hb
    simp at hb
  rw [jsCmpId, hx, hy, idNumD, idNumD, hx, hy]
  simp only [Option.getD_some]
  omega

/-- Reading a concatenation of parameter records: the later record (the
right spread operand) wins. -/
theorem assocLookup_append {β : Type} (l1 l2 : List (String × β))
    (k : String) :
    assocLookup (l1 ++ l2) k =
      ((assocLookup l1 k).map some).getD (assocLookup l2 k) := by
  induction l1 with
  | nil => simp [assocLookup]
  | cons p rest ih =>
    rcases p with ⟨k2, v2⟩
    rw [List.cons_append, assocLookup_cons, assocLookup_cons]
    by_cases h : k2 = k
    · simp [h]
    · simp [h, ih]

/-- Spread semantics on effective lookups: in `base ++ override` the
override's entry wins wherever it defines the key. -/
theorem pLookup_append (base override : Params) (k : String) :
    pLookup (base ++ override) k =
      ((pLookup override k).map some).getD (pLookup base k) := by
  rw [pLookup, pLookup, pLookup, List.reverse_append, assocLookup_append]

/-- When an `itemsParams` entry matches, `getItemParams` is exactly the
global params with the entry spread over them. -/
theorem getItemParams_of_entry (o : TranslationOptions) (itemKey : String)
    (e : Params) (he : itemsEntryFor o itemKey = some e) :
    getItemParams itemKey o = some ((o.params.getD []) ++ e) := by
  rcases hip : o.itemsParams with _ | ip
  · simp [itemsEntryFor, hip] at he
  · rcases ip with l | entries
    · rcases hpi : jsParseInt itemKey with _ | i
      · simp [itemsEntryFor, hip, hpi] at he
      · by_cases hrange : 0 ≤ i ∧ i < (l.length : Int)
        · simp only [itemsEntryFor, hip, hpi, if_pos hrange,
            Option.some_inj] at he
          simp only [getItemParams, hip, hpi, if_pos hrange, he]
        · simp [itemsEntryFor, hip, hpi, if_neg hrange] at he
    · by_cases hne : entries ≠ []
      · simp only [itemsEntryFor, hip, if_pos hne] at he
        have hsome : (assocLookup entries itemKey).isSome = true := by
          rw [he]
          rfl
        simp only [getItemParams, hip, he, Option.getD_some]
        simp [hne]
      · simp [itemsEntryFor, hip, if_neg hne] at he

/-! ## Theorems for useTranslations.ts -/

/-- C3 counterexample: the source contains the specific key `a`, but its
value is the (falsy) empty-string message, so the guard
`translationData[specificKey]` fails and the whole structure is processed
instead of the claimed single-entry result. -/
theorem specific_key_falsy_counterexample :
    processTranslations rtPlain
        (TData.obj [("a", TMsg.str ""), ("b", TMsg.str "x")])
        { specificKey := some "a" } =
      TResult.obj [("a", OutVal.s ""), ("b", OutVal.s "x")] ∧
      processTranslations rtPlain
        (TData.obj [("a", TMsg.str ""), ("b", TMsg.str "x")])
        { specificKey := some "a" } ≠
      TResult.obj [("a", OutVal.s "")] := by
  exact ⟨by decide, by decide⟩

/-- C3 (amended): when the source data holds a truthy value under the
(non-empty) `specificKey`, processTranslations returns a single-entry
structure shaped by `asArray` whose value is the translation of that item
under `getItemParams`, and whenever an `itemsParams` entry matches the
key, those per-item parameters override the global `params` on conflicting
keys. -/
theorem specific_key_single_entry (rt : TMsg → Params → String)
    (data : TData) (o : TranslationOptions) (k : String) (v : TMsg)
    (hk : o.specificKey = some k) (hk0 : k ≠ "")
    (hfound : dataLookup data k = some v) (htruthy : truthyMsg v = true)
    (hdata : hasData data = true) :
    (processTranslations rt data o =
        if o.asArray then
          TResult.arr [[("id", OutVal.s k),
            ("value", OutVal.s (rt v ((getItemParams k o).getD [])))]]
        else TResult.obj [(k, OutVal.s (rt v ((getItemParams k o).getD [])))]) ∧
      (∀ e, itemsEntryFor o k = some e → ∀ q,
        pLookup ((getItemParams k o).getD []) q =
          ((pLookup e q).map some).getD (pLookup (o.params.getD []) q)) := by
  constructor
  · have hspec : specLookup data o = some (k, v) := by
      simp [specLookup, hk, hk0, hfound, htruthy]
    simp only [processTranslations, hdata, Bool.true_eq_false, if_false,
      hspec, specificResult]
  · intro e he q
    rw [getItemParams_of_entry o k e he]
    simp only [Option.getD_some]
    exact pLookup_append (o.params.getD []) e q

/-- Witness for C3: a concrete source, specific key and matching
`itemsParams` entry whose parameter wins over the global one. -/
theorem specific_key_single_entry_witness :
    processTranslations (fun m ps =>
        match m with
        | TMsg.str s => s ++ (pLookup ps "x").getD ""
        | TMsg.obj _ => "")
      (TData.obj [("a", TMsg.str "m")])
      { specificKey := some "a", params := some [("x", "1")]
        itemsParams := some (ItemsParams.obj [("a", [("x", "9")])]) } =
      TResult.obj [("a", OutVal.s "m9")] := by
  have h := (specific_key_single_entry (fun m ps =>
      match m with
      | TMsg.str s => s ++ (pLookup ps "x").getD ""
      | TMsg.obj _ => "")
    (TData.obj [("a", TMsg.str "m")])
    { specificKey := some "a", params := some [("x", "1")]
      itemsParams := some (ItemsParams.obj [("a", [("x", "9")])]) }
    "a" (TMsg.str "m") rfl (by decide) (by decide) (by decide) (by decide)).1
  simpa using h

/-- C4 counterexample: an object source whose single key `1a` is not a
numeric string still produces array-shaped output (parseInt accepts the
prefix), refuting the claimed shape dichotomy. -/
theorem array_like_parseint_counterexample :
    isArrayRes (processTranslations rtPlain
        (TData.obj [("1a", TMsg.str "x")]) {}) = true ∧
      allNumericKeys (TData.obj [("1a", TMsg.str "x")]) = false ∧
      TranslationOptions.asArray {} = false ∧
      isArrType (TData.obj [("1a", TMsg.str "x")]) = false := by
  refine ⟨by decide, by decide, by decide, by decide⟩

/-- C4 (amended): for non-empty sources, when the specific-key shortcut
does not apply the output is an array exactly when the source is an
array, or every key of the object source has a parseInt-parseable prefix,
or `asArray` is set (so keys like `1a` also force an array); when the
shortcut applies, the shape follows `asArray` alone. -/
theorem output_shape_iff (rt : TMsg → Params → String) (data : TData)
    (o : TranslationOptions) (hdata : hasData data = true) :
    isArrayRes (processTranslations rt data o) =
      (if (specLookup data o).isSome then o.asArray else arrayMode data o) := by
  rw [processTranslations, hdata]
  simp only [Bool.true_eq_false, if_false]
  rcases hspec : specLookup data o with _ | kv
  · simp only [Option.isSome_none, Bool.false_eq_true, if_false]
    by_cases hmode : arrayMode data o = true
    · rw [if_pos hmode, hmode, isArrayRes]
    · rw [if_neg hmode, isArrayRes]
      simp only [Bool.not_eq_true] at hmode
      rw [hmode]
  · simp only [Option.isSome_some, if_true]
    rw [specificResult]
    by_cases hasa : o.asArray = true
    · rw [hasa, if_pos rfl, isArrayRes]
    · simp only [Bool.not_eq_true] at hasa
      rw [hasa]
      simp only [Bool.false_eq_true, if_false]
      rw [isArrayRes]

/-- Witness for C4 on a concrete numeric-keyed object source. -/
theorem output_shape_iff_witness :
    isArrayRes (processTranslations rtPlain
        (TData.obj [("2", TMsg.str "b"), ("1", TMsg.str "a")]) {}) = true := by
  have h := output_shape_iff rtPlain
    (TData.obj [("2", TMsg.str "b"), ("1", TMsg.str "a")]) {} (by decide)
  rw [h]
  decide

/-- C10: any object source in which every key has a parseInt-parseable
prefix is treated as array-like, so (absent a specific key) the output is
array-shaped even when the keys are not pure numeric strings. -/
theorem parseint_prefix_array_like (rt : TMsg → Params → String)
    (l : List (String × TMsg)) (o : TranslationOptions)
    (hne : l ≠ []) (hsk : o.specificKey = none)
    (hkeys : ∀ e ∈ l, (jsParseInt e.1).isSome = true) :
    isArrayRes (processTranslations rt (TData.obj l) o) = true := by
  have hdata : hasData (TData.obj l) = true := by
    rw [hasData]
    simp [hne]
  have hspec : specLookup (TData.obj l) o = none := by
    rw [specLookup, hsk]
  have hlike : isArrayLike (TData.obj l) = true := by
    rw [isArrayLike, List.all_eq_true]
    exact hkeys
  have hmode : arrayMode (TData.obj l) o = true := by
    rw [arrayMode, hlike]
    simp
  rw [processTranslations, hdata]
  simp only [Bool.true_eq_false, if_false, hspec]
  rw [if_pos hmode, isArrayRes]

/-- Witness for C10 on the keys `1a`, space-2 and `3.5`. -/
theorem parseint_prefix_array_like_witness :
    isArrayRes (processTranslations rtPlain
        (TData.obj [("1a", TMsg.str "x"), (" 2", TMsg.str "y"),
          ("3.5", TMsg.str "z")]) {}) = true :=
  parseint_prefix_array_like rtPlain
    [("1a", TMsg.str "x"), (" 2", TMsg.str "y"), ("3.5", TMsg.str "z")] {}
    (by decide) rfl (by decide)

/-- C5: ordering of array-shaped output (specific-key shortcut aside,
whose singleton is trivially ordered): with `sortBy` present on every
record, the sorted stage is non-decreasing in that property and stable
(every key class keeps its original order); without `sortBy`, arrays and
array-like objects are sorted by numeric id when the ids parse; otherwise
no sort is applied; and flipping only `reverse` reverses the whole
sequence. -/
theorem array_output_order (rt : TMsg → Params → String) (data : TData)
    (o : TranslationOptions)
    (hdata : hasData data = true)
    (hns : specLookup data o = none)
    (hmode : arrayMode data o = true) :
    (processTranslations rt data o =
        (if o.reverse then
          treverse (processTranslations rt data (setReverse o false))
         else processTranslations rt data (setReverse o false))) ∧
      (∀ p, o.sortBy = some p →
        (∀ r ∈ arrayRecords rt data o, (assocLookup r p).isSome = true) →
        (arraySorted rt data o).Pairwise
            (fun a b => sortKeyStr p a ≤ sortKeyStr p b) ∧
          ∀ v, (arraySorted rt data o).filter
              (fun r => decide (sortKeyStr p r = v)) =
            (arrayRecords rt data o).filter
              (fun r => decide (sortKeyStr p r = v))) ∧
      (o.sortBy = none → (isArrayLike data || isArrType data) = true →
        (∀ r ∈ arrayRecords rt data o, (idNum r).isSome = true) →
        (arraySorted rt data o).Pairwise (fun a b => idNumD a ≤ idNumD b)) ∧
      (o.sortBy = none → (isArrayLike data || isArrType data) = false →
        arraySorted rt data o = arrayRecords rt data o) := by
  refine ⟨?_, ?_, ?_, ?_⟩
  · have hns2 : specLookup data (setReverse o false) = none := hns
    have hmode2 : arrayMode data (setReverse o false) = true := hmode
    have hsort : arraySorted rt data (setReverse o false) =
        arraySorted rt data o := rfl
    have hrev2 : (setReverse o false).reverse = false := rfl
    have hrev : processTranslations rt data (setReverse o false) =
        TResult.arr (arraySorted rt data o) := by
      simp only [processTranslations, hdata, Bool.true_eq_false, if_false,
        hns2, hmode2, eq_self_iff_true, if_true, arrayFinal, hrev2,
        Bool.false_eq_true, hsort]
    have hmain : processTranslations rt data o =
        TResult.arr (if o.reverse then (arraySorted rt data o).reverse
          else arraySorted rt data o) := by
      simp only [processTranslations, hdata, Bool.true_eq_false, if_false,
        hns, hmode, eq_self_iff_true, if_true, arrayFinal]
    rw [hmain, hrev]
    by_cases hr : o.reverse = true <;> simp [hr, treverse]
  · intro p hp hall
    have hsrt : arraySorted rt data o =
        sortJs (jsCmpProp p) (arrayRecords rt data o) := by
      simp only [arraySorted, hp]
    constructor
    · rw [hsrt]
      refine sortJs_pairwise (sortKeyStr p) (jsCmpProp p)
        (arrayRecords rt data o) ?_
      intro a b ha hb
      exact jsCmpProp_le_iff p a b (hall a ha) (hall b hb)
    · intro v
      rw [hsrt]
      exact sortJs_filter (sortKeyStr p) (jsCmpProp p)
        (arrayRecords rt data o) v (fun r => decide (sortKeyStr p r = v))
        (fun a => by simp)
        (fun a b ha hb => jsCmpProp_le_iff p a b (hall a ha) (hall b hb))
  · intro hsn hcond hall
    have hsrt : arraySorted rt data o =
        sortJs jsCmpId (arrayRecords rt data o) := by
      simp only [arraySorted, hsn, hcond, eq_self_iff_true, if_true]
    rw [hsrt]
    refine sortJs_pairwise idNumD jsCmpId (arrayRecords rt data o) ?_
    intro a b ha hb
    exact jsCmpId_le_iff a b (hall a ha) (hall b hb)
  · intro hsn hcond
    simp only [arraySorted, hsn, hcond, Bool.false_eq_true, if_false]

/-- Witness for C5: flipping only `reverse` reverses the sorted output at
a concrete array source. -/
theorem array_output_order_witness :
    processTranslations rtPlain (TData.arr [TMsg.str "b", TMsg.str "a"])
        { sortBy := some "value", reverse := true } =
      treverse (processTranslations rtPlain
        (TData.arr [TMsg.str "b", TMsg.str "a"])
        (setReverse { sortBy := some "value", reverse := true } false)) := by
  have h := (array_output_order rtPlain
    (TData.arr [TMsg.str "b", TMsg.str "a"])
    { sortBy := some "value", reverse := true }
    (by decide) rfl (by decide)).1
  simpa using h
